import Mathlib

/-!
Verification of the Receipt-and-Invoice-Digitizer extraction core.

A shallow embedding, in Lean 4, of the pure extraction/validation core of the
repository (`src/validation.py`, `src/extraction/normalizer.py`,
`src/extraction/field_extractor.py`, `src/extraction/regex_patterns.py`,
`src/extraction/vendor_extractor.py`), together with theorems settling the
frozen claims about it.

Modelling conventions:
* Python numbers (floats) are modelled as rationals `ℚ`; every numeric literal
  appearing in the code (0.02, 0.15, 1.5, ...) is exactly representable.
* Python strings are Lean `String`s; the character classes used by the code
  (`str.isdigit`, `str.upper`, `\w`, `\s`, ...) are modelled on the ASCII
  range, which is the range the repository's receipts exercise.
* Fallible Python code is modelled in `Except Unit`: a raised exception
  (`ValueError`, `NameError`, `IndexError`) is `Except.error ()`.
-/

namespace ReceiptDigitizer

/-! ## Character classes (ASCII models of Python's `str` predicates) -/

/-- Python's `\s` / `str.isspace` on the ASCII range:
space, tab, newline, carriage return, vertical tab, form feed. -/
def isPySpace (c : Char) : Bool :=
  c = ' ' || c = '\t' || c = '\n' || c = '\r' || c = '\x0b' || c = '\x0c'

/-- `c.isdigit()` (ASCII): `'0' ≤ c ≤ '9'`. -/
def isDigitC (c : Char) : Bool := 48 ≤ c.toNat && c.toNat ≤ 57

/-- ASCII upper-case letter. -/
def isUpperC (c : Char) : Bool := 65 ≤ c.toNat && c.toNat ≤ 90

/-- ASCII lower-case letter. -/
def isLowerC (c : Char) : Bool := 97 ≤ c.toNat && c.toNat ≤ 122

/-- ASCII letter. -/
def isAlphaC (c : Char) : Bool := isUpperC c || isLowerC c

/-- Python's regex `\w` on the ASCII range: letter, digit or underscore. -/
def isWordC (c : Char) : Bool := isAlphaC c || isDigitC c || c = '_'

/-- The numeric value of an ASCII digit character. -/
def digitVal (c : Char) : ℕ := c.toNat - 48

/-- `str.upper` on one character (ASCII model): map `a`-`z` to `A`-`Z`. -/
def toUpperC (c : Char) : Char :=
  if isLowerC c then Char.ofNat (c.toNat - 32) else c

/-- `str.upper` (ASCII model). -/
def pyUpper (s : String) : String := (s.toList.map toUpperC).asString

/-- Strip `isPySpace` characters from both ends of a character list. -/
def stripChars (cs : List Char) : List Char :=
  ((cs.dropWhile isPySpace).reverse.dropWhile isPySpace).reverse

/-- Python `str.strip()` (ASCII whitespace model). -/
def pyStrip (s : String) : String := (stripChars s.toList).asString

/-- Helper for `pySplit`: accumulate the current word (reversed) while
scanning. -/
def pySplitAux : List Char → List Char → List String
  | [], acc => if acc.isEmpty then [] else [acc.reverse.asString]
  | c :: cs, acc =>
    if isPySpace c then
      if acc.isEmpty then pySplitAux cs []
      else acc.reverse.asString :: pySplitAux cs []
    else pySplitAux cs (c :: acc)

/-- Python `str.split()` with no argument: split on runs of whitespace,
discarding empty pieces. -/
def pySplit (s : String) : List String := pySplitAux s.toList []

/-- Python `" ".join(tokens)`. -/
def joinWithSpace : List String → String
  | [] => ""
  | [t] => t
  | t :: ts => t ++ " " ++ joinWithSpace ts

/-! ## Python scalar values, truthiness, `float()` -/

/-- A Python scalar as it appears in a bill mapping: `None`, a number, or a
string. -/
inductive PyVal where
  | vnone : PyVal
  | vnum (q : ℚ) : PyVal
  | vstr (s : String) : PyVal
  deriving DecidableEq, Repr

/-- Python truthiness of a scalar (`bool(v)`). -/
def PyVal.truthy : PyVal → Bool
  | .vnone => false
  | .vnum q => decide (q ≠ 0)
  | .vstr s => decide (s ≠ "")

/-- Parse an unsigned decimal (digits, optional fractional part), the core of
Python's `float(str)`.  Exponents and `inf`/`nan` forms are not modelled: no
claim exercises them. -/
def parseUnsignedDec (cs : List Char) : Option ℚ :=
  let intPart := cs.takeWhile isDigitC
  let rest := cs.dropWhile isDigitC
  match rest with
  | [] =>
    if intPart.isEmpty then none
    else some (intPart.foldl (fun acc c => 10 * acc + (digitVal c : ℚ)) 0)
  | '.' :: rest2 =>
    let fracPart := rest2.takeWhile isDigitC
    let rest3 := rest2.dropWhile isDigitC
    if rest3.isEmpty then
      if intPart.isEmpty && fracPart.isEmpty then none
      else
        some ((intPart.foldl (fun acc c => 10 * acc + (digitVal c : ℚ)) 0) +
          (fracPart.foldl (fun acc c => 10 * acc + (digitVal c : ℚ)) 0) /
            (10 : ℚ) ^ fracPart.length)
    else none
  | _ => none

/-- Python `float(s)` on a string: strip whitespace, optional sign, decimal
form; `none` models the raised `ValueError`. -/
def pyFloatOfString (s : String) : Option ℚ :=
  match (stripChars s.toList) with
  | '+' :: rest => parseUnsignedDec rest
  | '-' :: rest => (parseUnsignedDec rest).map Neg.neg
  | cs => parseUnsignedDec cs

/-- Python `float(v)` on a scalar: numbers pass through, strings are parsed
(`ValueError` on failure), `None` raises `TypeError`. -/
def pyFloat : PyVal → Except Unit ℚ
  | .vnum q => .ok q
  | .vstr s =>
    match pyFloatOfString s with
    | some q => .ok q
    | none => .error ()
  | .vnone => .error ()

/-- Python `v or 0`. -/
def orZero (v : PyVal) : PyVal := if v.truthy then v else .vnum 0

/-- Python `abs(x)`. -/
def pyAbs (q : ℚ) : ℚ := if q < 0 then -q else q

/-- Python `round(x, 2)` modelled on rationals.  All the values the code
rounds are (in these claims) exact multiples of `1/100` or `1/2`, where every
tie-breaking convention (here: half up) agrees. -/
def round2 (q : ℚ) : ℚ := ((100 * q + 1 / 2).floor : ℚ) / 100

/-! ## `src/validation.py` -/

/-- One entry of the `errors` list built by `validate_bill_amounts`. -/
structure AmountError where
  type : String
  items_sum : ℚ
  tax_amount : ℚ
  extracted_total : ℚ
  deriving DecidableEq, Repr

/-- The mapping returned by `validate_bill_amounts`. -/
structure ValidationReport where
  is_valid : Bool
  items_sum : ℚ
  tax_amount : ℚ
  total_amount : ℚ
  errors : List AmountError
  deriving DecidableEq, Repr

/-- The slice of a raw bill mapping that `validate_bill_amounts` reads: the
`item_total` entry of each line item (`none` when the key is absent), and the
`tax_amount` / `total_amount` entries (`none` when the key is absent). -/
structure BillData where
  items : Option (List (Option PyVal))
  tax_amount : Option PyVal
  total_amount : Option PyVal

/-- `validate_bill_amounts(bill_data, tolerance)` from `src/validation.py`.
`Except.error ()` models the `ValueError` that `float(...)` raises on a
non-numeric string. -/
def validate_bill_amounts_tol (tolerance : ℚ) (bill_data : BillData) :
    Except Unit ValidationReport := do
  let items := bill_data.items.getD []
  let tax_amount ← pyFloat (orZero (bill_data.tax_amount.getD (.vnum 0)))
  let total ← pyFloat (orZero (bill_data.total_amount.getD (.vnum 0)))
  let item_vals ← items.mapM (fun item => pyFloat (orZero (item.getD (.vnum 0))))
  let items_sum := item_vals.sum
  let matches_inclusive : Bool := decide (pyAbs (items_sum - total) ≤ tolerance)
  let matches_exclusive : Bool := decide (pyAbs (items_sum + tax_amount - total) ≤ tolerance)
  let is_valid := matches_inclusive || matches_exclusive
  let errors : List AmountError :=
    if is_valid then []
    else [{ type := "AMOUNT_MISMATCH", items_sum := round2 items_sum,
            tax_amount := round2 tax_amount, extracted_total := round2 total }]
  return { is_valid := is_valid, items_sum := round2 items_sum,
           tax_amount := round2 tax_amount, total_amount := round2 total,
           errors := errors }

/-- `validate_bill_amounts` at its default tolerance `0.02`. -/
def validate_bill_amounts (bill_data : BillData) : Except Unit ValidationReport :=
  validate_bill_amounts_tol (2 / 100) bill_data

/-- A bill whose `item_total`, `tax_amount` and `total_amount` values are all
plain numbers. -/
def numericBill (item_totals : List ℚ) (tax total : ℚ) : BillData :=
  { items := some (item_totals.map (fun q => some (.vnum q))),
    tax_amount := some (.vnum tax),
    total_amount := some (.vnum total) }

/-! ## `src/extraction/normalizer.py` -/

/-- `normalize_vendor` from `src/extraction/normalizer.py`:
`"UNKNOWN"` for a falsy (empty) string, else upper-case and re-join the
whitespace-split tokens. -/
def normalize_vendor (name : String) : String :=
  if name = "" then "UNKNOWN"
  else joinWithSpace (pySplit (pyUpper name))

/-- `normalize_currency` from `src/extraction/normalizer.py`. -/
def normalize_currency (value : String) : String :=
  if value = "" then "USD" else pyUpper value

/-! ### `normalize_date` and its model of `datetime.strptime`

`normalize_date` tries `strptime` with `"%Y-%m-%d"`, `"%d/%m/%Y"` and
`"%d-%m-%Y"` in turn and re-emits `date(...).isoformat()`.  CPython compiles
each format to a regex — `%Y ↦ \d\d\d\d`, `%m ↦ 1[0-2]|0[1-9]|[1-9]`,
`%d ↦ 3[01]|[12]\d|0[1-9]|[1-9]` — matches a prefix with the usual
left-to-right backtracking preference, and raises `ValueError` when characters
remain or the date is invalid.  The `*Alts` functions below list each field's
alternative reads in that preference order; a full parse takes the first
complete path (the backtracking-preferred match) and then applies the
length/validity checks. -/

/-- The reads of `%Y` (exactly four digits), as `(value, rest)`. -/
def yearAlts : List Char → List (ℕ × List Char)
  | a :: b :: c :: d :: rest =>
    if isDigitC a && isDigitC b && isDigitC c && isDigitC d then
      [(((digitVal a * 10 + digitVal b) * 10 + digitVal c) * 10 + digitVal d, rest)]
    else []
  | _ => []

/-- The reads of `%m` (`1[0-2]|0[1-9]|[1-9]`), in preference order. -/
def monthAlts (cs : List Char) : List (ℕ × List Char) :=
  (match cs with
   | '1' :: c :: rest => if '0' ≤ c && c ≤ '2' then [(10 + digitVal c, rest)] else []
   | _ => []) ++
  (match cs with
   | '0' :: c :: rest => if '1' ≤ c && c ≤ '9' then [(digitVal c, rest)] else []
   | _ => []) ++
  (match cs with
   | c :: rest => if '1' ≤ c && c ≤ '9' then [(digitVal c, rest)] else []
   | _ => [])

/-- The reads of `%d` (`3[01]|[12]\d|0[1-9]|[1-9]`), in preference order. -/
def dayAlts (cs : List Char) : List (ℕ × List Char) :=
  (match cs with
   | '3' :: c :: rest => if '0' ≤ c && c ≤ '1' then [(30 + digitVal c, rest)] else []
   | _ => []) ++
  (match cs with
   | c :: c2 :: rest =>
     if ('1' ≤ c && c ≤ '2') && isDigitC c2 then [(digitVal c * 10 + digitVal c2, rest)]
     else []
   | _ => []) ++
  (match cs with
   | '0' :: c :: rest => if '1' ≤ c && c ≤ '9' then [(digitVal c, rest)] else []
   | _ => []) ++
  (match cs with
   | c :: rest => if '1' ≤ c && c ≤ '9' then [(digitVal c, rest)] else []
   | _ => [])

/-- A literal separator character. -/
def litAlt (ch : Char) : List Char → List (Unit × List Char)
  | c :: rest => if c = ch then [((), rest)] else []
  | _ => []

/-- All complete-regex paths of format `%Y<sep>%m<sep>%d`, in backtracking
preference order, each with its unconsumed rest. -/
def ymdPaths (sep : Char) (cs : List Char) : List ((ℕ × ℕ × ℕ) × List Char) :=
  (yearAlts cs).flatMap fun py =>
    (litAlt sep py.2).flatMap fun p1 =>
      (monthAlts p1.2).flatMap fun pm =>
        (litAlt sep pm.2).flatMap fun p2 =>
          (dayAlts p2.2).map fun pd => ((py.1, pm.1, pd.1), pd.2)

/-- All complete-regex paths of format `%d<sep>%m<sep>%Y`, in backtracking
preference order. -/
def dmyPaths (sep : Char) (cs : List Char) : List ((ℕ × ℕ × ℕ) × List Char) :=
  (dayAlts cs).flatMap fun pd =>
    (litAlt sep pd.2).flatMap fun p1 =>
      (monthAlts p1.2).flatMap fun pm =>
        (litAlt sep pm.2).flatMap fun p2 =>
          (yearAlts p2.2).map fun py => ((py.1, pm.1, pd.1), py.2)

/-- Gregorian leap year, as `calendar.isleap` / `datetime.date` use it. -/
def isLeapYear (y : ℕ) : Bool := (y % 4 = 0 && y % 100 ≠ 0) || y % 400 = 0

/-- Days in a month (`datetime.date`'s validity rule). -/
def daysInMonth (y m : ℕ) : ℕ :=
  if m = 2 then (if isLeapYear y then 29 else 28)
  else if m = 4 || m = 6 || m = 9 || m = 11 then 30
  else 31

/-- The `(year, month, day)` triples `datetime.date` accepts. -/
def validDate (y m d : ℕ) : Bool :=
  1 ≤ y && y ≤ 9999 && 1 ≤ m && m ≤ 12 && 1 ≤ d && d ≤ daysInMonth y m

/-- `datetime.strptime(s, fmt).date()` for one of the three formats: the
backtracking-preferred regex match must consume the whole string and denote a
valid date; `none` models the caught `ValueError`. -/
def strptimeDate (paths : List Char → List ((ℕ × ℕ × ℕ) × List Char))
    (s : String) : Option (ℕ × ℕ × ℕ) :=
  match (paths s.toList).head? with
  | some ((y, m, d), rest) =>
    if rest.isEmpty && validDate y m d then some (y, m, d) else none
  | none => none

/-- The character of a decimal digit. -/
def digitChar (n : ℕ) : Char := Char.ofNat (48 + n % 10)

/-- Two-digit zero-padded print (`%02d`), for `m, d < 100`. -/
def pad2 (n : ℕ) : List Char := [digitChar (n / 10), digitChar n]

/-- Four-digit zero-padded print (`%04d`), for `y < 10000`. -/
def pad4 (n : ℕ) : List Char :=
  [digitChar (n / 1000), digitChar (n / 100), digitChar (n / 10), digitChar n]

/-- `datetime.date(y, m, d).isoformat()`. -/
def isoformat (y m d : ℕ) : String :=
  (pad4 y ++ '-' :: pad2 m ++ '-' :: pad2 d).asString

/-- `normalize_date` from `src/extraction/normalizer.py`: try the formats
`"%Y-%m-%d"`, `"%d/%m/%Y"`, `"%d-%m-%Y"` in order, return the ISO form of the
first that parses, `""` when none does. -/
def normalize_date (date_str : String) : String :=
  match strptimeDate (ymdPaths '-') date_str with
  | some (y, m, d) => isoformat y m d
  | none =>
    match strptimeDate (dmyPaths '/') date_str with
    | some (y, m, d) => isoformat y m d
    | none =>
      match strptimeDate (dmyPaths '-') date_str with
      | some (y, m, d) => isoformat y m d
      | none => ""

/-! ## `src/extraction/vendor_extractor.py` -/

/-- The `STOPWORDS` set. -/
def STOPWORDS : List String :=
  ["INVOICE", "RECEIPT", "TAX", "GST", "VAT", "TOTAL",
   "BILL", "DATE", "TIME", "CASH", "CARD", "AMOUNT",
   "CHANGE", "BALANCE"]

/-- The `LEGAL_SUFFIXES` set. -/
def LEGAL_SUFFIXES : List String :=
  ["LTD", "LIMITED", "PVT", "PRIVATE", "LLP",
   "INC", "CORP", "CO", "COMPANY", "SDN", "BHD"]

/-- The `ADDRESS_KEYWORDS` set. -/
def ADDRESS_KEYWORDS : List String :=
  ["ROAD", "STREET", "ST", "RD", "AVE", "AVENUE",
   "LANE", "JALAN", "NAGAR", "SECTOR",
   "CITY", "STATE", "COUNTRY", "PIN", "ZIP"]

/-- A character `PUNCTUATION_RE = [^\w\s&\-.]` keeps: word characters,
whitespace, `&`, `-`, `.`. -/
def keepChar (c : Char) : Bool := isWordC c || isPySpace c || c = '&' || c = '-' || c = '.'

/-- `re.sub(r"\s{2,}", " ", ·)`: replace each maximal whitespace run of length
at least two by a single space (a lone whitespace character is untouched). -/
def collapseWs : List Char → List Char
  | [] => []
  | [c] => [c]
  | c1 :: c2 :: cs =>
    if isPySpace c1 && isPySpace c2 then
      ' ' :: collapseWs ((c2 :: cs).dropWhile isPySpace)
    else c1 :: collapseWs (c2 :: cs)
  termination_by cs => cs.length
  decreasing_by
    · simpa using Nat.lt_succ_of_le ((List.dropWhile_sublist _).length_le)
    · simp

/-- `_normalize_line` from `vendor_extractor.py`: drop punctuation, collapse
whitespace runs, strip. -/
def normalizeLine (line : String) : String :=
  (stripChars (collapseWs (line.toList.filter keepChar))).asString

/-- Python `str.isupper()` (ASCII model): at least one cased character and no
lower-case one. -/
def pyIsUpper (cs : List Char) : Bool :=
  cs.any isAlphaC && cs.all (fun c => !isLowerC c)

/-- Helper for `pyIsTitle`: walk the characters tracking whether the previous
one was cased, and whether any cased character was seen. -/
def pyIsTitleAux : List Char → Bool → Bool → Bool
  | [], _, found => found
  | c :: cs, prevCased, found =>
    if isUpperC c then (if prevCased then false else pyIsTitleAux cs true true)
    else if isLowerC c then (if prevCased then pyIsTitleAux cs true true else false)
    else pyIsTitleAux cs false found

/-- Python `str.istitle()` (ASCII model). -/
def pyIsTitle (cs : List Char) : Bool := pyIsTitleAux cs false false

/-- `score_line(line, index)` from `vendor_extractor.py`. -/
def score_line (line : String) (index : ℕ) : ℚ :=
  let l := normalizeLine line
  if l = "" then 0
  else
    let cs := l.toList
    let tokens := pySplit l
    let token_count := tokens.length
    let s1 : ℚ := max 0 (12 - (index : ℚ))
    let s2 : ℚ :=
      if (cs.countP isDigitC : ℚ) / (max cs.length 1 : ℚ) > 15 / 100 then -4 else 0
    let s3 : ℚ := if tokens.any (fun t => ADDRESS_KEYWORDS.contains (pyUpper t)) then -5 else 0
    let s4 : ℚ := if pyIsUpper cs then 4 else if pyIsTitle cs then 2 else 0
    let s5 : ℚ := if tokens.any (fun t => LEGAL_SUFFIXES.contains (pyUpper t)) then 4 else 0
    let stopword_hits : ℕ := (tokens.filter (fun t => STOPWORDS.contains (pyUpper t))).length
    let s6 : ℚ := -((stopword_hits : ℚ) * (3 / 2))
    let s7 : ℚ :=
      if 2 ≤ token_count && token_count ≤ 6 then 3
      else if token_count > 10 then -4 else 0
    let s8 : ℚ := if cs.any (fun c => c = '#' || c = '@' || c = ':') then -2 else 0
    round2 (s1 + s2 + s3 + s4 + s5 + s6 + s7 + s8)

/-- Python `str.splitlines()` helper: `acc` is the current line, reversed. -/
def pySplitlinesAux : List Char → List Char → List String
  | [], acc => if acc.isEmpty then [] else [acc.reverse.asString]
  | '\r' :: '\n' :: rest, acc => acc.reverse.asString :: pySplitlinesAux rest []
  | '\n' :: rest, acc => acc.reverse.asString :: pySplitlinesAux rest []
  | '\r' :: rest, acc => acc.reverse.asString :: pySplitlinesAux rest []
  | c :: rest, acc => pySplitlinesAux rest (c :: acc)

/-- Python `str.splitlines()` (on `\n`, `\r\n`, `\r`; a trailing break opens no
empty final line). -/
def pySplitlines (s : String) : List String := pySplitlinesAux s.toList []

/-- The `lines` list built by `extract_vendor_name_nlp`: every line of the OCR
text whose stripped form has length at least 3, normalized. -/
def vendorLines (ocr_text : String) : List String :=
  ((pySplitlines ocr_text).filter (fun l => 3 ≤ (pyStrip l).length)).map normalizeLine

/-- The `candidates` list built by `extract_vendor_name_nlp`:
`(score_line(line, idx), line)` over the first 20 lines. -/
def vendorCandidates (ocr_text : String) : List (ℚ × String) :=
  ((vendorLines ocr_text).take 20).enum.map fun p => (score_line p.2 p.1, p.2)

/-- Stable insertion (larger scores first, existing entries keep priority on
ties), the behaviour of Python's stable `list.sort`. -/
def insertDesc (x : ℚ × String) : List (ℚ × String) → List (ℚ × String)
  | [] => [x]
  | y :: ys => if y.1 ≤ x.1 then x :: y :: ys else y :: insertDesc x ys

/-- `candidates.sort(key=lambda x: x[0], reverse=True)`: Python's sort is
stable, so as a function it is stable descending insertion sort. -/
def sortDesc : List (ℚ × String) → List (ℚ × String)
  | [] => []
  | x :: xs => insertDesc x (sortDesc xs)

/-- `extract_vendor_name_nlp(ocr_text)` from `vendor_extractor.py`. -/
def extract_vendor_name_nlp (ocr_text : String) : String :=
  if ocr_text = "" then ""
  else
    let lines := vendorLines ocr_text
    if lines.isEmpty then ""
    else
      match sortDesc (vendorCandidates ocr_text) with
      | [] => ""
      | best :: _ => if best.1 < 4 then "" else best.2

/-- The first entry of maximal score: the selection a stable descending sort
followed by `candidates[0]` performs. -/
def firstMax : List (ℚ × String) → Option (ℚ × String)
  | [] => none
  | x :: xs =>
    match firstMax xs with
    | none => some x
    | some m => if x.1 < m.1 then some m else some x

/-! ## `src/extraction/field_extractor.py` and `regex_patterns.py`

`field_extractor.py` imports only the pattern tables; the calls it makes to
`normalize_date`, `normalize_time` and `normalize_currency` refer to names that
are **not** defined in that module, so reaching one of those calls raises
`NameError` (modelled as `Except.error ()`).  `re.search` semantics: the match
is the leftmost one, with alternatives preferred in left-to-right backtracking
order. -/

/-- The regex `\b` test between the previously scanned character (`none` at
the start of the string) and a next character (`none` at the end): exactly one
side is a word character. -/
def isBoundary (prev next : Option Char) : Bool :=
  (prev.elim false isWordC) != (next.elim false isWordC)

/-- Take exactly `n` leading digit characters. -/
def takeDigitsN : ℕ → List Char → Option (List Char × List Char)
  | 0, cs => some ([], cs)
  | _ + 1, [] => none
  | n + 1, c :: cs =>
    if isDigitC c then (takeDigitsN n cs).map (fun p => (c :: p.1, p.2)) else none

/-- One literal character. -/
def expectChar (ch : Char) : List Char → Option (List Char)
  | c :: cs => if c = ch then some cs else none
  | [] => none

/-- Scan for the leftmost position where the positional matcher `m` succeeds;
`prev` carries the character before the current position for `\b` tests. -/
def reSearch {α : Type} (m : Option Char → List Char → Option α) :
    Option Char → List Char → Option α
  | prev, [] => m prev []
  | prev, c :: rest =>
    match m prev (c :: rest) with
    | some r => some r
    | none => reSearch m (some c) rest

/-- Positional matcher for `\b(\d{g1}<sep>\d{g2}<sep>\d{g3})\b`, returning the
captured group. -/
def matchDateAt (g1 g2 g3 : ℕ) (sep : Char) (prev : Option Char)
    (cs : List Char) : Option String := do
  guard (isBoundary prev (cs.head?))
  let p1 ← takeDigitsN g1 cs
  let r2 ← expectChar sep p1.2
  let p2 ← takeDigitsN g2 r2
  let r3 ← expectChar sep p2.2
  let p3 ← takeDigitsN g3 r3
  guard (isBoundary (p3.1.getLast?) (p3.2.head?))
  return (p1.1 ++ sep :: p2.1 ++ sep :: p3.1).asString

/-- Positional matcher for the fourth entry of `DATE_PATTERNS`,
`\b(\d{2}\.\d{2}\.{4})\b` — note `\.{4}` is four literal dots, a slip kept
faithfully (the claims only involve the first three patterns). -/
def matchDate4At (prev : Option Char) (cs : List Char) : Option String := do
  guard (isBoundary prev (cs.head?))
  let p1 ← takeDigitsN 2 cs
  let r2 ← expectChar '.' p1.2
  let p2 ← takeDigitsN 2 r2
  let r3 ← expectChar '.' p2.2
  let r4 ← expectChar '.' r3
  let r5 ← expectChar '.' r4
  let r6 ← expectChar '.' r5
  guard (isBoundary (some '.') r6.head?)
  return (p1.1 ++ '.' :: p2.1 ++ ['.', '.', '.', '.']).asString

/-- `re.search(DATE_PATTERNS[i], text)` for the four patterns, in table
order. -/
def searchDatePatterns (text : String) : Option String :=
  match reSearch (matchDateAt 4 2 2 '-') none text.toList with
  | some g => some g
  | none =>
    match reSearch (matchDateAt 2 2 4 '/') none text.toList with
    | some g => some g
    | none =>
      match reSearch (matchDateAt 2 2 4 '-') none text.toList with
      | some g => some g
      | none => reSearch matchDate4At none text.toList

/-- `extract_purchase_date(text)` from `field_extractor.py`.  When any date
pattern matches, the code calls `normalize_date(match.group(1))`, but
`normalize_date` is not imported in `field_extractor.py`, so Python raises
`NameError` (modelled as `Except.error ()`); with no match it returns `None`. -/
def extract_purchase_date (text : String) : Except Unit (Option String) :=
  match searchDatePatterns text with
  | some _ => .error ()
  | none => .ok none

/-- What `extract_purchase_date` was evidently intended to do (and what the
spec describes): the module with `normalize_date` in scope, as
`normalizer.py` defines it. -/
def extract_purchase_date_asSpecified (text : String) : Option String :=
  (searchDatePatterns text).map normalize_date

/-- Consume an exact literal character sequence. -/
def stripLit : List Char → List Char → Option (List Char)
  | [], cs => some cs
  | _ :: _, [] => none
  | p :: ps, c :: cs => if c = p then stripLit ps cs else none

/-- Literal substring search (`re.search` on a pattern with no regex
metacharacters). -/
def hasSubstr (pat : String) (cs : List Char) : Bool :=
  (reSearch (fun _ c => (stripLit pat.toList c).map (fun _ => ())) none cs).isSome

/-- Backtracking for `[sep]*([tok]+)` when the greedy star ate characters the
group needs: `rm` is the reversed star run still held; give characters back
until the group can start. -/
def tryStar (tokCls : Char → Bool) : List Char → List Char → Option (List Char)
  | rm, rest =>
    if rest.head?.elim false tokCls then some (rest.takeWhile tokCls)
    else
      match rm with
      | [] => none
      | c :: rm2 => tryStar tokCls rm2 (c :: rest)

/-- Match `[sep]*([tok]+)` at the head of `cs` (both quantifiers greedy, with
regex backtracking), returning the captured group. -/
def starPlusGroup (sepCls tokCls : Char → Bool) (cs : List Char) : Option String :=
  (tryStar tokCls (cs.takeWhile sepCls).reverse (cs.dropWhile sepCls)).map List.asString

/-- The class `[\s:#-]` of `INVOICE_PATTERNS[0]`. -/
def sepCls1 (c : Char) : Bool := isPySpace c || c = ':' || c = '#' || c = '-'

/-- The class `[A-Z0-9\-\/]` of `INVOICE_PATTERNS[0]` and `[2]`. -/
def tokCls1 (c : Char) : Bool := isUpperC c || isDigitC c || c = '-' || c = '/'

/-- The class `[A-Z0-9]` of `INVOICE_PATTERNS[1]`. -/
def tokCls2 (c : Char) : Bool := isUpperC c || isDigitC c

/-- One alternative of `(invoice|bill|receipt)[\s:#-]*([A-Z0-9\-\/]+)`:
the literal label then the separator/token tail; returns group 2. -/
def tryLabel1 (lab : String) (cs : List Char) : Option String :=
  match stripLit lab.toList cs with
  | none => none
  | some rest => starPlusGroup sepCls1 tokCls1 rest

/-- Positional matcher for `INVOICE_PATTERNS[0]` (no `\b`, label alternatives
in regex order). -/
def matchLabelNumAt (labs : List String) (cs : List Char) : Option String :=
  match labs with
  | [] => none
  | lab :: rest =>
    match tryLabel1 lab cs with
    | some g => some g
    | none => matchLabelNumAt rest cs

/-- Greedy `([tok]+)` followed by `\b`: take the maximal run, then give back
trailing characters until the boundary after the group holds. -/
def shrinkTail : List Char → List Char → Option (List Char)
  | [], _ => none
  | c :: rg, rest =>
    if isBoundary (some c) rest.head? then some (c :: rg).reverse
    else shrinkTail rg (c :: rest)

/-- Match `([tok]+)\b` at the head of `cs`. -/
def groupTailBoundary (tokCls : Char → Bool) (cs : List Char) : Option String :=
  (shrinkTail (cs.takeWhile tokCls).reverse (cs.dropWhile tokCls)).map List.asString

/-- Positional matcher for `\bLIT[\s\-:]?([tok]+)\b` (patterns 1 and 2 of
`INVOICE_PATTERNS`): the optional separator is tried consumed first, as the
regex engine does. -/
def matchLitSepTokAt (lit : String) (tokCls : Char → Bool) (prev : Option Char)
    (cs : List Char) : Option String :=
  if !isBoundary prev cs.head? then none
  else
    match stripLit lit.toList cs with
    | none => none
    | some r1 =>
      let withSep : Option String :=
        match r1 with
        | c :: r2 =>
          if isPySpace c || c = '-' || c = ':' then groupTailBoundary tokCls r2 else none
        | [] => none
      match withSep with
      | some g => some g
      | none => groupTailBoundary tokCls r1

/-- `extract_invoice_number(text)` from `field_extractor.py`.  The code first
upper-cases the text, so `INVOICE_PATTERNS[0]`'s lower-case, case-sensitively
applied labels can never match; `INVOICE_PATTERNS[1]` and `[2]` have a single
capture group, so the code's `match.group(2)` raises `IndexError` whenever one
of them matches (modelled as `Except.error ()`). -/
def extract_invoice_number (text : String) : Except Unit (Option String) :=
  let up := (pyUpper text).toList
  match reSearch (fun _ cs => matchLabelNumAt ["invoice", "bill", "receipt"] cs) none up with
  | some g => .ok (some g)
  | none =>
    match reSearch (matchLitSepTokAt "INV" tokCls2) none up with
    | some _ => .error ()
    | none =>
      match reSearch (matchLitSepTokAt "BILL" tokCls1) none up with
      | some _ => .error ()
      | none => .ok none

/-- What the first invoice pattern was evidently intended to do (and what the
spec describes): the label alternation matched case-insensitively (here: on
the upper-cased text with upper-cased labels), returning group 2. -/
def extract_invoice_number_asSpecified (text : String) : Option String :=
  reSearch (fun _ cs => matchLabelNumAt ["INVOICE", "BILL", "RECEIPT"] cs) none
    (pyUpper text).toList

/-- Positional matcher for a word-bounded literal, `\bLIT\b`. -/
def matchWordLitAt (pat : List Char) (prev : Option Char) (cs : List Char) :
    Option Unit := do
  guard (isBoundary prev cs.head?)
  let rest ← stripLit pat cs
  guard (isBoundary pat.getLast? rest.head?)
  return ()

/-- `re.search(\bLIT\b, ·)`. -/
def hasWordSub (pat : String) (cs : List Char) : Bool :=
  (reSearch (matchWordLitAt pat.toList) none cs).isSome

/-- `extract_purchase_currency(text)` from `field_extractor.py`.  The loop
`for pattern in CURRENCY_PATTERNS` iterates over the **keys** of the dict
(`"USD"`, `"INR"`, `"MYR"`, `"EUR"`, `"GBP"`) in insertion order, so
`re.search` looks for those literal key strings, never for the symbol
patterns stored in the values; when a key does occur as a substring the code
evaluates `normalize_currency(match.group(1))`, and `normalize_currency` is
not imported in `field_extractor.py`, so Python raises `NameError` (and
`match.group(1)` would raise `IndexError` besides, the key patterns having no
group).  Modelled as `Except.error ()`. -/
def extract_purchase_currency (text : String) : Except Unit (Option String) :=
  let cs := text.toList
  if hasSubstr "USD" cs then .error ()
  else if hasSubstr "INR" cs then .error ()
  else if hasSubstr "MYR" cs then .error ()
  else if hasSubstr "EUR" cs then .error ()
  else if hasSubstr "GBP" cs then .error ()
  else .ok none

/-- What the currency lookup was evidently intended to do (and what the spec
describes): the first entry of `CURRENCY_PATTERNS`, in insertion order
`USD, INR, MYR, EUR, GBP`, whose value pattern (word-bounded code, or symbol)
matches, mapped to its ISO code. -/
def extract_purchase_currency_asSpecified (text : String) : Option String :=
  let cs := text.toList
  if hasWordSub "USD" cs || hasSubstr "$" cs then some "USD"
  else if hasWordSub "INR" cs || hasSubstr "₹" cs then some "INR"
  else if hasWordSub "MYR" cs || hasWordSub "RM" cs then some "MYR"
  else if hasWordSub "EUR" cs || hasSubstr "€" cs then some "EUR"
  else if hasWordSub "GBP" cs || hasSubstr "£" cs then some "GBP"
  else none

/-! ## Spec-modelled components

`ocr.py` imports `is_field_weak` and `extract_fields_from_ocr` from
`src/extraction/field_extractor.py` and `convert_to_usd` from
`src/extraction/currency_converter.py`, but neither definition is present in
the repository snapshot.  They are modelled from the spec below. -/

/-- Modelled from the spec: `is_field_weak` is imported in `ocr.py` but not
defined anywhere under `src/`; §4.1 of the spec gives its contract: "A value
is weak if it is absent, null, an empty/whitespace-only string, or (for
fields defined as strictly positive, e.g. `total_amount`) numerically zero or
unparseable as a number", and it "must not raise on malformed input".
`strictly_positive` says whether the field being tested is one of the
strictly-positive ones. -/
def is_field_weak (strictly_positive : Bool) (v : Option PyVal) : Bool :=
  match v with
  | none => true
  | some .vnone => true
  | some (.vstr s) =>
    if pyStrip s = "" then true
    else if strictly_positive then
      match pyFloatOfString s with
      | none => true
      | some q => decide (q = 0)
    else false
  | some (.vnum q) => strictly_positive && decide (q = 0)

/-- A normalized line item (spec §3 `NormalizedLineItem`). -/
structure NormalizedLineItem where
  serial_no : ℕ
  item_name : String
  quantity : ℕ
  unit_price : ℚ
  item_total : ℚ
  deriving DecidableEq, Repr

/-- A normalized bill (spec §3 `NormalizedBill`). -/
structure NormalizedBill where
  invoice_number : Option String
  vendor_name : String
  purchase_date : String
  purchase_time : String
  currency : String
  items : List NormalizedLineItem
  subtotal : ℚ
  tax_amount : ℚ
  total_amount : ℚ
  payment_method : String
  deriving DecidableEq, Repr

/-- A currency-converted bill (spec §3 `ConvertedBill`): the normalized bill
plus the USD-denominated fields. -/
structure ConvertedBill extends NormalizedBill where
  total_amount_usd : ℚ
  tax_amount_usd : ℚ
  original_currency : String
  exchange_rate_used : ℚ
  deriving DecidableEq, Repr

/-- Modelled from the spec: the rate lookup of §4.5/§6 — "a rate source keyed
by ISO 4217 code, defaulting to 1.0 for USD or when the code is unknown". -/
def lookupRate (rates : String → Option ℚ) (code : String) : ℚ :=
  if code = "USD" then 1 else (rates code).getD 1

/-- Modelled from the spec: `convert_to_usd` is imported in `ocr.py` from
`src/extraction/currency_converter.py`, a module absent from the snapshot.
Spec §4.5: "Converts `total_amount` and `tax_amount` to USD-denominated
fields while leaving the original-currency fields untouched", recording
`exchange_rate_used` and `original_currency` for audit. -/
def convert_to_usd (rates : String → Option ℚ) (b : NormalizedBill) : ConvertedBill :=
  let rate := lookupRate rates b.currency
  { toNormalizedBill := b
    total_amount_usd := round2 (b.total_amount * rate)
    tax_amount_usd := round2 (b.tax_amount * rate)
    original_currency := b.currency
    exchange_rate_used := rate }

/-! ## Helper lemmas -/

/-- `float(q or 0)` is the identity on numbers. -/
theorem pyFloat_orZero_vnum (q : ℚ) : pyFloat (orZero (.vnum q)) = .ok q := by
  by_cases h : q = 0
  · simp [orZero, PyVal.truthy, pyFloat, h]
  · simp [orZero, PyVal.truthy, pyFloat, h]

/-- Coercing a list of plain numbers succeeds and returns them unchanged. -/
theorem mapM_pyFloat_numeric (qs : List ℚ) :
    (qs.map (fun q => some (PyVal.vnum q))).mapM
      (fun item => pyFloat (orZero (item.getD (.vnum 0)))) = .ok qs := by
  induction qs with
  | nil => rfl
  | cons q qs ih =>
    simp only [List.map_cons, List.mapM_cons, Option.getD_some, pyFloat_orZero_vnum, ih]
    rfl

/-- `pyAbs` is the absolute value. -/
theorem pyAbs_eq_abs (q : ℚ) : pyAbs q = |q| := by
  unfold pyAbs
  by_cases h : q < 0
  · rw [if_pos h, abs_of_neg h]
  · rw [if_neg h, abs_of_nonneg (not_lt.mp h)]

/-! ## Claim C1 -/

/-- **C1.**  For numeric `item_total`, `tax_amount` and `total_amount` values,
`validate_bill_amounts` returns a report with `is_valid = true` iff
`|items_sum - total| ≤ 0.02` or `|items_sum + tax - total| ≤ 0.02`
(`items_sum` the sum of the `item_total`s, tolerance defaulted to `0.02`);
when `is_valid` is false the report carries exactly one `AMOUNT_MISMATCH`
error with the three figures rounded to 2 decimals.  In particular, for
`items = [{item_total: 50}]` and `tax_amount = 5`: `total_amount = 55` and
`total_amount = 50` are valid, `total_amount = 60` is invalid with one
`AMOUNT_MISMATCH` error. -/
theorem validate_bill_amounts_spec (item_totals : List ℚ) (tax total : ℚ) :
    (∃ r : ValidationReport,
      validate_bill_amounts (numericBill item_totals tax total) = .ok r ∧
      (r.is_valid = true ↔
        |item_totals.sum - total| ≤ 2 / 100 ∨
          |item_totals.sum + tax - total| ≤ 2 / 100) ∧
      (r.is_valid = false →
        r.errors = [{ type := "AMOUNT_MISMATCH", items_sum := round2 item_totals.sum,
                      tax_amount := round2 tax, extracted_total := round2 total }]) ∧
      (r.is_valid = true → r.errors = []) ∧
      r.items_sum = round2 item_totals.sum ∧ r.tax_amount = round2 tax ∧
      r.total_amount = round2 total) ∧
    (validate_bill_amounts (numericBill [50] 5 55)).toOption.map
        ValidationReport.is_valid = some true ∧
    (validate_bill_amounts (numericBill [50] 5 50)).toOption.map
        ValidationReport.is_valid = some true ∧
    (validate_bill_amounts (numericBill [50] 5 60)).toOption.map
        ValidationReport.is_valid = some false ∧
    (validate_bill_amounts (numericBill [50] 5 60)).toOption.map
        ValidationReport.errors =
      some [{ type := "AMOUNT_MISMATCH", items_sum := 50, tax_amount := 5,
              extracted_total := 60 }] := by
  refine ⟨?_, by with_unfolding_all rfl, by with_unfolding_all rfl,
    by with_unfolding_all rfl, by with_unfolding_all rfl⟩
  unfold validate_bill_amounts validate_bill_amounts_tol numericBill
  simp only [Option.getD_some, pyFloat_orZero_vnum, mapM_pyFloat_numeric, bind, Except.bind,
    pure, Except.pure]
  refine ⟨_, rfl, ?_, ?_, ?_, rfl, rfl, rfl⟩
  · dsimp only
    simp [pyAbs_eq_abs]
  · intro h
    dsimp only at h ⊢
    simp only [h, Bool.false_eq_true, if_false]
  · intro h
    dsimp only at h ⊢
    simp only [h, if_true]

/-! ## Claim C5 -/

/-- **C5.**  The weak-field predicate classifies a value as weak exactly when
it is absent, null, an empty or whitespace-only string, or — for
strictly-positive fields such as `total_amount` — numerically zero or
unparseable as a number (it is a total function, so it never raises).  In
particular `total_amount = 0` is weak and `total_amount = 12.50` is not. -/
theorem is_field_weak_spec (sp : Bool) (v : Option PyVal) :
    (is_field_weak sp v = true ↔
      (v = none ∨ v = some .vnone ∨
        (∃ s, v = some (.vstr s) ∧ pyStrip s = "") ∨
        (sp = true ∧ v = some (.vnum 0)) ∨
        (sp = true ∧ ∃ s, v = some (.vstr s) ∧
          ∀ q, pyFloatOfString s = some q → q = 0))) ∧
    is_field_weak true (some (.vnum 0)) = true ∧
    is_field_weak true (some (.vnum (25 / 2))) = false := by
  refine ⟨?_, by with_unfolding_all rfl, by with_unfolding_all rfl⟩
  rcases v with _ | (_ | q | s)
  · simp [is_field_weak]
  · simp [is_field_weak]
  · simp [is_field_weak]
  · simp only [is_field_weak]
    by_cases hstrip : pyStrip s = ""
    · simp [hstrip]
    · rcases hsp : sp with _ | _
      · simp [hstrip]
      · rcases hf : pyFloatOfString s with _ | q
        · simp only [hstrip, if_false, if_true, true_iff]
          refine Or.inr (Or.inr (Or.inr (Or.inr ⟨by simp, s, by simp, ?_⟩)))
          intro q hq
          rw [hf] at hq
          cases hq
        · simp only [hstrip, if_false, if_true, hf, decide_eq_true_eq]
          constructor
          · intro hq0
            refine Or.inr (Or.inr (Or.inr (Or.inr ⟨by simp, s, by simp, ?_⟩)))
            intro q2 hq2
            rw [hf] at hq2
            cases hq2
            exact hq0
          · rintro (h | h | ⟨t, h, ht⟩ | ⟨hsp2, h⟩ | ⟨hsp2, t, h, ht⟩)
            · cases h
            · cases h
            · cases h
              exact absurd ht hstrip
            · cases h
            · cases h
              exact ht q hf

/-! ## Claim C7 -/

/-- **C7.**  Currency conversion leaves every original-currency field of the
normalized bill unchanged — in particular `total_amount`, `tax_amount` and
`currency` — and only adds the USD-denominated fields `total_amount_usd`,
`tax_amount_usd`, `exchange_rate_used` and `original_currency`. -/
theorem convert_to_usd_frame (rates : String → Option ℚ) (b : NormalizedBill) :
    ((convert_to_usd rates b).toNormalizedBill = b ∧
      (convert_to_usd rates b).total_amount = b.total_amount ∧
      (convert_to_usd rates b).tax_amount = b.tax_amount ∧
      (convert_to_usd rates b).currency = b.currency) ∧
    (convert_to_usd rates b).total_amount_usd
        = round2 (b.total_amount * lookupRate rates b.currency) ∧
    (convert_to_usd rates b).tax_amount_usd
        = round2 (b.tax_amount * lookupRate rates b.currency) ∧
    (convert_to_usd rates b).original_currency = b.currency ∧
    (convert_to_usd rates b).exchange_rate_used = lookupRate rates b.currency :=
  ⟨⟨rfl, rfl, rfl, rfl⟩, rfl, rfl, rfl, rfl⟩

/-! ## Claim C10 -/

/-- The coercion `float(bill_data.get(k, 0) or 0)` succeeds on this value. -/
def coerces (v : Option PyVal) : Bool :=
  match pyFloat (orZero (v.getD (.vnum 0))) with
  | .ok _ => true
  | .error _ => false

/-- A successfully coercible value yields some rational. -/
theorem coerces_ok {v : Option PyVal} (h : coerces v = true) :
    ∃ q, pyFloat (orZero (v.getD (.vnum 0))) = .ok q := by
  unfold coerces at h
  rcases hf : pyFloat (orZero (v.getD (.vnum 0))) with e | q
  · rw [hf] at h
    cases h
  · exact ⟨q, rfl⟩

/-- Coercing a list of coercible values succeeds. -/
theorem mapM_ok_of_all_coerces (l : List (Option PyVal))
    (h : ∀ it ∈ l, coerces it = true) :
    ∃ qs, l.mapM (fun it => pyFloat (orZero (it.getD (.vnum 0)))) = .ok qs := by
  induction l with
  | nil => exact ⟨[], rfl⟩
  | cons a l ih =>
    obtain ⟨q, hq⟩ := coerces_ok (h a (by simp))
    obtain ⟨qs, hqs⟩ := ih (fun it hit => h it (by simp [hit]))
    refine ⟨q :: qs, ?_⟩
    rw [List.mapM_cons, hq, hqs]
    rfl

/-- **C10 counterexample.**  `validate_bill_amounts` raises `ValueError` (the
model returns `Except.error ()`) on a bill whose `tax_amount` is the
non-numeric string `"N/A"`: the claim that it never raises on any input bill
is false. -/
theorem validate_bill_amounts_raises_on_string :
    validate_bill_amounts
      { items := some [], tax_amount := some (.vstr "N/A"),
        total_amount := some (.vnum 60) } = .error () := by
  with_unfolding_all rfl

/-- **C10 (amended).**  `validate_bill_amounts` returns a report (never
raises) for every bill whose `tax_amount`, `total_amount` and `item_total`
values are numbers, absent, `None`, falsy, or numeric strings — that is,
whenever the `float(· or 0)` coercions succeed; a non-empty non-numeric
string makes `float` raise `ValueError`. -/
theorem validate_bill_amounts_ok_of_coercible (bill : BillData)
    (htax : coerces bill.tax_amount = true)
    (htot : coerces bill.total_amount = true)
    (hitems : ∀ it ∈ bill.items.getD [], coerces it = true) :
    ∃ r, validate_bill_amounts bill = .ok r := by
  obtain ⟨qt, hqt⟩ := coerces_ok htax
  obtain ⟨qT, hqT⟩ := coerces_ok htot
  obtain ⟨qs, hqs⟩ := mapM_ok_of_all_coerces _ hitems
  unfold validate_bill_amounts validate_bill_amounts_tol
  simp only [hqt, hqT, hqs]
  exact ⟨_, rfl⟩

/-- **C10 witness.**  A concrete coercible bill (numeric-string item total,
absent tax, zero total) on which the amended theorem applies. -/
theorem validate_bill_amounts_ok_of_coercible_witness :
    ∃ r, validate_bill_amounts
      { items := some [some (.vstr " 12.50 ")], tax_amount := none,
        total_amount := some (.vnum 0) } = .ok r :=
  validate_bill_amounts_ok_of_coercible
    { items := some [some (.vstr " 12.50 ")], tax_amount := none,
      total_amount := some (.vnum 0) }
    (by with_unfolding_all rfl) (by with_unfolding_all rfl)
    (by with_unfolding_all decide)

/-! ## Claim C3 -/

/-- **C3 (code bug).**  On `"Invoice Date: 15/01/2026"` the second date
pattern does match `"15/01/2026"`, but `extract_purchase_date` then calls
`normalize_date`, a name `field_extractor.py` never imports, so the call
raises `NameError` instead of returning a value; with `normalize_date` in
scope (as the spec describes and `normalizer.py` defines) the result would be
`"2026-01-15"`. -/
theorem extract_purchase_date_name_error :
    searchDatePatterns "Invoice Date: 15/01/2026" = some "15/01/2026" ∧
    extract_purchase_date "Invoice Date: 15/01/2026" = .error () ∧
    extract_purchase_date_asSpecified "Invoice Date: 15/01/2026"
      = some "2026-01-15" :=
  ⟨by with_unfolding_all rfl, by with_unfolding_all rfl, by with_unfolding_all rfl⟩

/-! ## Claim C4 -/

/-- **C4 (code bug).**  `extract_invoice_number` upper-cases the text but
applies the label pattern `(invoice|bill|receipt)...` case-sensitively with
lower-case labels, so it can never match: on `"Receipt #AB-1029"` the
function returns `None`, not `"AB-1029"` (the case-insensitive label match
the spec describes would return `"AB-1029"`); and on text matching the later
`INV`/`BILL` patterns, which have a single group, the code's
`match.group(2)` raises `IndexError` — `"INV 001"` raises instead of
returning `"001"`. -/
theorem extract_invoice_number_upper_mismatch :
    extract_invoice_number "Receipt #AB-1029" = .ok none ∧
    extract_invoice_number_asSpecified "Receipt #AB-1029" = some "AB-1029" ∧
    extract_invoice_number "INV 001" = .error () :=
  ⟨by with_unfolding_all rfl, by with_unfolding_all rfl, by with_unfolding_all rfl⟩

/-! ## Claim C6 -/

/-- **C6 (code bug).**  `extract_purchase_currency` iterates over the keys of
`CURRENCY_PATTERNS`, not its value patterns, so a text containing `"₹"` (but
no literal key string) yields `None` rather than `"INR"` (the table lookup
the spec describes would yield `"INR"`); and when a literal key such as
`"USD"` does occur, the call `normalize_currency(match.group(1))` raises
(`normalize_currency` is not imported, and the pattern has no group). -/
theorem extract_purchase_currency_key_iteration :
    extract_purchase_currency "Total: ₹ 1,234" = .ok none ∧
    extract_purchase_currency_asSpecified "Total: ₹ 1,234" = some "INR" ∧
    extract_purchase_currency "USD 100" = .error () :=
  ⟨by with_unfolding_all rfl, by with_unfolding_all rfl, by with_unfolding_all rfl⟩

theorem char_eq_iff_toNat {a b : Char} : a = b ↔ a.toNat = b.toNat :=
  ⟨fun h => h ▸ rfl, fun h => Char.ext (UInt32.toNat.inj h)⟩

theorem toNat_ofNat_valid {n : ℕ} (h : n < 55296) : (Char.ofNat n).toNat = n := by
  rw [Char.ofNat, dif_pos (Or.inl h)]
  rfl

theorem isLowerC_bounds {c : Char} (h : isLowerC c = true) :
    97 ≤ c.toNat ∧ c.toNat ≤ 122 := by
  simpa [isLowerC] using h

theorem toUpperC_toNat_of_lower {c : Char} (h : isLowerC c = true) :
    (toUpperC c).toNat = c.toNat - 32 := by
  obtain ⟨h1, h2⟩ := isLowerC_bounds h
  unfold toUpperC
  rw [if_pos h]
  exact toNat_ofNat_valid (by omega)

theorem isLowerC_toUpperC (c : Char) : isLowerC (toUpperC c) = false := by
  by_cases h : isLowerC c = true
  · obtain ⟨h1, h2⟩ := isLowerC_bounds h
    have h3 := toUpperC_toNat_of_lower h
    simp only [isLowerC, h3, Bool.and_eq_true, decide_eq_true_eq, Bool.and_eq_false_iff,
      decide_eq_false_iff_not]
    omega
  · unfold toUpperC
    rw [if_neg h]
    exact Bool.eq_false_iff.mpr h

theorem toUpperC_idem (c : Char) : toUpperC (toUpperC c) = toUpperC c := by
  conv_lhs => rw [toUpperC.eq_def]
  rw [if_neg (by rw [isLowerC_toUpperC]; exact Bool.false_ne_true)]

theorem isPySpace_toNat {c : Char} :
    isPySpace c = true ↔
      (c.toNat = 32 ∨ c.toNat = 9 ∨ c.toNat = 10 ∨ c.toNat = 13 ∨
        c.toNat = 11 ∨ c.toNat = 12) := by
  have e1 : (' ' : Char).toNat = 32 := rfl
  have e2 : ('\t' : Char).toNat = 9 := rfl
  have e3 : ('\n' : Char).toNat = 10 := rfl
  have e4 : ('\r' : Char).toNat = 13 := rfl
  have e5 : ('\x0b' : Char).toNat = 11 := rfl
  have e6 : ('\x0c' : Char).toNat = 12 := rfl
  simp only [isPySpace, Bool.or_eq_true, decide_eq_true_eq, char_eq_iff_toNat,
    e1, e2, e3, e4, e5, e6]
  tauto

theorem isPySpace_toUpperC (c : Char) : isPySpace (toUpperC c) = isPySpace c := by
  by_cases h : isLowerC c = true
  · obtain ⟨h1, h2⟩ := isLowerC_bounds h
    have h3 := toUpperC_toNat_of_lower h
    have hl : isPySpace (toUpperC c) = false := by
      rw [Bool.eq_false_iff]
      intro hx
      rw [isPySpace_toNat] at hx
      omega
    have hr : isPySpace c = false := by
      rw [Bool.eq_false_iff]
      intro hx
      rw [isPySpace_toNat] at hx
      omega
    rw [hl, hr]
  · unfold toUpperC
    rw [if_neg h]

theorem toList_asString (l : List Char) : (List.asString l).toList = l := rfl

theorem asString_toList (s : String) : s.toList.asString = s := rfl

theorem asString_eq_empty_iff {l : List Char} : List.asString l = "" ↔ l = [] := by
  constructor
  · intro h
    have := congrArg String.toList h
    simpa [toList_asString] using this
  · rintro rfl
    rfl

theorem pyUpper_toList (s : String) : (pyUpper s).toList = s.toList.map toUpperC := rfl

theorem pyUpper_idem (s : String) : pyUpper (pyUpper s) = pyUpper s := by
  unfold pyUpper
  rw [toList_asString, List.map_map]
  congr 1
  exact List.map_congr_left fun c _ => toUpperC_idem c

theorem pyUpper_eq_empty_iff {s : String} : pyUpper s = "" ↔ s = "" := by
  unfold pyUpper
  rw [asString_eq_empty_iff, List.map_eq_nil_iff]
  constructor
  · intro h
    rw [← asString_toList s, h]
    rfl
  · rintro rfl
    rfl

/-- **C8-part.** `normalize_currency` is idempotent. -/
theorem normalize_currency_idem (value : String) :
    normalize_currency (normalize_currency value) = normalize_currency value := by
  unfold normalize_currency
  by_cases h : value = ""
  · rw [if_pos h, if_neg (by decide)]
    rfl
  · rw [if_neg h, if_neg (fun hu => h (pyUpper_eq_empty_iff.mp hu))]
    exact pyUpper_idem value

theorem pySplitAux_ne_nil_of_acc (cs : List Char) :
    ∀ acc, acc ≠ [] → pySplitAux cs acc ≠ [] := by
  induction cs with
  | nil =>
    intro acc hacc
    simp [pySplitAux, hacc]
  | cons c cs ih =>
    intro acc hacc
    unfold pySplitAux
    by_cases hws : isPySpace c
    · rw [if_pos hws, if_neg (by simpa using hacc)]
      simp
    · rw [if_neg hws]
      exact ih (c :: acc) (by simp)

theorem pySplitAux_ne_nil (cs : List Char) (h : ∃ c ∈ cs, isPySpace c = false) :
    ∀ acc, pySplitAux cs acc ≠ [] := by
  induction cs with
  | nil => simp at h
  | cons c cs ih =>
    intro acc
    unfold pySplitAux
    by_cases hws : isPySpace c
    · obtain ⟨d, hd, hdws⟩ := h
      have hd2 : d ∈ cs := by
        rcases List.mem_cons.mp hd with rfl | h2
        · rw [hws] at hdws
          cases hdws
        · exact h2
      rw [if_pos hws]
      by_cases hacc : acc.isEmpty
      · rw [if_pos hacc]
        exact ih ⟨d, hd2, hdws⟩ []
      · rw [if_neg hacc]
        simp
    · rw [if_neg hws]
      exact pySplitAux_ne_nil_of_acc cs (c :: acc) (by simp)

theorem pySplitAux_mem (cs : List Char) :
    ∀ acc, (∀ c ∈ acc, isPySpace c = false) →
      ∀ t ∈ pySplitAux cs acc, t ≠ "" ∧ (∀ c ∈ t.toList, isPySpace c = false) ∧
        (∀ c ∈ t.toList, c ∈ acc ∨ c ∈ cs) := by
  induction cs with
  | nil =>
    intro acc hacc t ht
    unfold pySplitAux at ht
    by_cases he : acc.isEmpty
    · rw [if_pos he] at ht
      cases ht
    · rw [if_neg he] at ht
      rcases List.mem_singleton.mp ht with rfl
      refine ⟨?_, ?_, ?_⟩
      · rw [Ne, asString_eq_empty_iff]
        simpa using he
      · intro c hc
        rw [toList_asString] at hc
        exact hacc c (List.mem_reverse.mp hc)
      · intro c hc
        rw [toList_asString] at hc
        exact Or.inl (List.mem_reverse.mp hc)
  | cons c cs ih =>
    intro acc hacc t ht
    unfold pySplitAux at ht
    by_cases hws : isPySpace c
    · rw [if_pos hws] at ht
      by_cases he : acc.isEmpty
      · rw [if_pos he] at ht
        obtain ⟨h1, h2, h3⟩ := ih [] (by simp) t ht
        exact ⟨h1, h2, fun d hd => by
          rcases h3 d hd with h | h
          · cases h
          · exact Or.inr (List.mem_cons_of_mem c h)⟩
      · rw [if_neg he] at ht
        rcases List.mem_cons.mp ht with rfl | ht2
        · refine ⟨?_, ?_, ?_⟩
          · rw [Ne, asString_eq_empty_iff]
            simpa using he
          · intro d hd
            rw [toList_asString] at hd
            exact hacc d (List.mem_reverse.mp hd)
          · intro d hd
            rw [toList_asString] at hd
            exact Or.inl (List.mem_reverse.mp hd)
        · obtain ⟨h1, h2, h3⟩ := ih [] (by simp) t ht2
          exact ⟨h1, h2, fun d hd => by
            rcases h3 d hd with h | h
            · cases h
            · exact Or.inr (List.mem_cons_of_mem c h)⟩
    · rw [if_neg hws] at ht
      have hacc2 : ∀ d ∈ c :: acc, isPySpace d = false := by
        intro d hd
        rcases List.mem_cons.mp hd with rfl | hd2
        · simpa using hws
        · exact hacc d hd2
      obtain ⟨h1, h2, h3⟩ := ih (c :: acc) hacc2 t ht
      refine ⟨h1, h2, fun d hd => ?_⟩
      rcases h3 d hd with h | h
      · rcases List.mem_cons.mp h with h5 | h4
        · exact Or.inr (by simp [h5])
        · exact Or.inl h4
      · exact Or.inr (by simp [h])

theorem pySplitAux_nonws_prefix (pre : List Char) :
    ∀ rest acc, (∀ c ∈ pre, isPySpace c = false) →
      pySplitAux (pre ++ rest) acc = pySplitAux rest (pre.reverse ++ acc) := by
  induction pre with
  | nil => intro rest acc _; simp
  | cons c pre ih =>
    intro rest acc h
    have hc : isPySpace c = false := h c (by simp)
    have hrev : ((c :: pre).reverse ++ acc) = pre.reverse ++ (c :: acc) := by simp
    rw [List.cons_append, hrev]
    rw [show pySplitAux (c :: (pre ++ rest)) acc = pySplitAux (pre ++ rest) (c :: acc) by
      simp only [pySplitAux]
      rw [if_neg (by simp [hc])]]
    exact ih rest (c :: acc) (fun d hd => h d (by simp [hd]))

theorem pySplit_single (t : String) (ht : t ≠ "")
    (h : ∀ c ∈ t.toList, isPySpace c = false) : pySplit t = [t] := by
  unfold pySplit
  have : t.toList = t.toList ++ [] := by simp
  rw [this, pySplitAux_nonws_prefix t.toList [] [] h]
  unfold pySplitAux
  rw [if_neg]
  · simp only [List.append_nil, List.reverse_reverse]
    rfl
  · simp only [List.append_nil, List.isEmpty_eq_true, List.reverse_eq_nil_iff]
    intro h2
    exact ht (by rw [← asString_toList t, h2]; rfl)

theorem toList_append (a b : String) : (a ++ b).toList = a.toList ++ b.toList :=
  String.data_append a b

theorem pySplit_joinWithSpace (toks : List String) (h0 : toks ≠ [])
    (h : ∀ t ∈ toks, t ≠ "" ∧ ∀ c ∈ t.toList, isPySpace c = false) :
    pySplit (joinWithSpace toks) = toks := by
  induction toks with
  | nil => cases h0 rfl
  | cons t ts ih =>
    rcases ts with _ | ⟨t2, ts⟩
    · exact pySplit_single t (h t (by simp)).1 (h t (by simp)).2
    · obtain ⟨ht1, ht2⟩ := h t (by simp)
      have hJ : joinWithSpace (t :: t2 :: ts) = t ++ " " ++ joinWithSpace (t2 :: ts) := rfl
      unfold pySplit
      rw [hJ, toList_append, toList_append]
      have hsp : (" " : String).toList = [' '] := rfl
      rw [hsp, List.append_assoc, List.singleton_append,
        pySplitAux_nonws_prefix t.toList (' ' :: (joinWithSpace (t2 :: ts)).toList) [] ht2]
      unfold pySplitAux
      rw [if_pos (by decide), if_neg]
      · rw [List.append_nil, List.reverse_reverse, asString_toList]
        congr 1
        exact ih (by simp) (fun u hu => h u (by simp [hu]))
      · simp only [List.append_nil, List.isEmpty_eq_true, List.reverse_eq_nil_iff]
        intro h2
        exact ht1 (by rw [← asString_toList t, h2]; rfl)

theorem joinWithSpace_ne_empty (toks : List String) (h0 : toks ≠ [])
    (h : ∀ t ∈ toks, t ≠ "") : joinWithSpace toks ≠ "" := by
  rcases toks with _ | ⟨t, ts⟩
  · cases h0 rfl
  rcases ts with _ | ⟨t2, ts⟩
  · exact h t (by simp)
  · have : joinWithSpace (t :: t2 :: ts) = t ++ " " ++ joinWithSpace (t2 :: ts) := rfl
    rw [this]
    intro hx
    have := congrArg String.toList hx
    rw [toList_append, toList_append] at this
    have hsp : (" " : String).toList = [' '] := rfl
    rw [hsp] at this
    simp at this

theorem pyUpper_append (a b : String) : pyUpper (a ++ b) = pyUpper a ++ pyUpper b := by
  unfold pyUpper
  rw [toList_append, List.map_append]
  rfl

theorem pyUpper_fixed_of_chars (s : String) (h : ∀ c ∈ s.toList, toUpperC c = c) :
    pyUpper s = s := by
  unfold pyUpper
  rw [List.map_congr_left h, List.map_id']
  rfl

theorem pyUpper_joinWithSpace (toks : List String) (h : ∀ t ∈ toks, pyUpper t = t) :
    pyUpper (joinWithSpace toks) = joinWithSpace toks := by
  induction toks with
  | nil => rfl
  | cons t ts ih =>
    rcases ts with _ | ⟨t2, ts⟩
    · exact h t (by simp)
    · have hJ : joinWithSpace (t :: t2 :: ts) = t ++ " " ++ joinWithSpace (t2 :: ts) := rfl
      rw [hJ, pyUpper_append, pyUpper_append, h t (by simp),
        ih (fun u hu => h u (by simp [hu]))]
      rfl

/-- The tokens `normalize_vendor` builds for a non-empty input: each is
non-empty, whitespace-free, and consists of upper-cased characters. -/
theorem vendor_tokens_facts (s : String) :
    ∀ t ∈ pySplit (pyUpper s), t ≠ "" ∧ (∀ c ∈ t.toList, isPySpace c = false) ∧
      pyUpper t = t := by
  intro t ht
  obtain ⟨h1, h2, h3⟩ := pySplitAux_mem (pyUpper s).toList [] (by simp) t ht
  refine ⟨h1, h2, pyUpper_fixed_of_chars t ?_⟩
  intro c hc
  rcases h3 c hc with h | h
  · cases h
  · rw [pyUpper_toList] at h
    obtain ⟨d, _, rfl⟩ := List.mem_map.mp h
    exact toUpperC_idem d

/-- `normalize_vendor` on a string with at least one non-whitespace
character: the result is the join of the non-empty token list. -/
theorem normalize_vendor_ne_empty (s : String)
    (h : ∃ c ∈ s.toList, isPySpace c = false) : normalize_vendor s ≠ "" := by
  have hs : s ≠ "" := by
    rintro rfl
    simp at h
  unfold normalize_vendor
  rw [if_neg hs]
  have hup : ∃ c ∈ (pyUpper s).toList, isPySpace c = false := by
    obtain ⟨c, hc, hcw⟩ := h
    refine ⟨toUpperC c, ?_, by rw [isPySpace_toUpperC]; exact hcw⟩
    rw [pyUpper_toList]
    exact List.mem_map.mpr ⟨c, hc, rfl⟩
  refine joinWithSpace_ne_empty _ (pySplitAux_ne_nil _ hup []) ?_
  intro t ht
  exact (vendor_tokens_facts s t ht).1

theorem normalize_vendor_idem_of (s : String)
    (hs : s = "" ∨ ∃ c ∈ s.toList, isPySpace c = false) :
    normalize_vendor (normalize_vendor s) = normalize_vendor s := by
  rcases hs with rfl | h
  · rfl
  · have hne := normalize_vendor_ne_empty s h
    have hs : s ≠ "" := by
      rintro rfl
      simp at h
    have hv : normalize_vendor s = joinWithSpace (pySplit (pyUpper s)) := by
      unfold normalize_vendor
      rw [if_neg hs]
    have htoks := vendor_tokens_facts s
    have hfix : pyUpper (normalize_vendor s) = normalize_vendor s := by
      rw [hv]
      exact pyUpper_joinWithSpace _ (fun t ht => (htoks t ht).2.2)
    have htoks_ne : pySplit (pyUpper s) ≠ [] := by
      intro hx
      rw [hv, hx] at hne
      exact hne rfl
    conv_lhs => rw [normalize_vendor.eq_def]
    rw [if_neg hne, hfix, hv,
      pySplit_joinWithSpace _ htoks_ne (fun t ht => ⟨(htoks t ht).1, (htoks t ht).2.1⟩)]

theorem digitChar_toNat (n : ℕ) : (digitChar n).toNat = 48 + n % 10 :=
  toNat_ofNat_valid (by omega)

theorem isDigitC_digitChar (n : ℕ) : isDigitC (digitChar n) = true := by
  simp only [isDigitC, digitChar_toNat, Bool.and_eq_true, decide_eq_true_eq]
  omega

theorem digitVal_digitChar (n : ℕ) : digitVal (digitChar n) = n % 10 := by
  simp [digitVal, digitChar_toNat]

theorem yearAlts_pad4 {y : ℕ} (hy : y ≤ 9999) (rest : List Char) :
    yearAlts (pad4 y ++ rest) = [(y, rest)] := by
  show yearAlts (digitChar (y / 1000) :: digitChar (y / 100) :: digitChar (y / 10)
    :: digitChar y :: rest) = [(y, rest)]
  unfold yearAlts
  dsimp only
  rw [if_pos (by simp [isDigitC_digitChar])]
  simp only [digitVal_digitChar]
  have : ((y / 1000 % 10 * 10 + y / 100 % 10) * 10 + y / 10 % 10) * 10 + y % 10 = y := by
    omega
  rw [this]

theorem monthAlts_pad2 {m : ℕ} (hm1 : 1 ≤ m) (hm2 : m ≤ 12) (rest : List Char) :
    ∃ extra, monthAlts (pad2 m ++ rest) = (m, rest) :: extra := by
  interval_cases m <;> exact ⟨_, rfl⟩

theorem dayAlts_pad2 {d : ℕ} (hd1 : 1 ≤ d) (hd2 : d ≤ 31) (rest : List Char) :
    ∃ extra, dayAlts (pad2 d ++ rest) = (d, rest) :: extra := by
  interval_cases d <;> exact ⟨_, rfl⟩

theorem daysInMonth_le (y m : ℕ) : daysInMonth y m ≤ 31 := by
  unfold daysInMonth
  split_ifs <;> omega

theorem validDate_bounds {y m d : ℕ} (h : validDate y m d = true) :
    1 ≤ y ∧ y ≤ 9999 ∧ 1 ≤ m ∧ m ≤ 12 ∧ 1 ≤ d ∧ d ≤ 31 := by
  have h31 := daysInMonth_le y m
  simp only [validDate, Bool.and_eq_true, decide_eq_true_eq] at h
  omega

theorem ymdPaths_iso {y m d : ℕ} (hy : y ≤ 9999) (hm1 : 1 ≤ m) (hm2 : m ≤ 12)
    (hd1 : 1 ≤ d) (hd2 : d ≤ 31) :
    ∃ junk, ymdPaths '-' (pad4 y ++ ('-' :: (pad2 m ++ ('-' :: pad2 d))))
      = ((y, m, d), ([] : List Char)) :: junk := by
  obtain ⟨em, hem⟩ := monthAlts_pad2 hm1 hm2 ('-' :: pad2 d)
  obtain ⟨ed, hed⟩ := dayAlts_pad2 hd1 hd2 []
  rw [List.append_nil] at hed
  unfold ymdPaths
  rw [yearAlts_pad4 hy]
  simp only [List.flatMap_cons, List.flatMap_nil, List.append_nil]
  rw [show litAlt '-' ('-' :: (pad2 m ++ ('-' :: pad2 d)))
      = [((), pad2 m ++ ('-' :: pad2 d))] by simp [litAlt]]
  simp only [List.flatMap_cons, List.flatMap_nil, List.append_nil]
  rw [hem]
  simp only [List.flatMap_cons]
  rw [show litAlt '-' ('-' :: pad2 d) = [((), pad2 d)] by simp [litAlt]]
  simp only [List.flatMap_cons, List.flatMap_nil, List.append_nil, hed, List.map_cons]
  exact ⟨_, rfl⟩

theorem strptimeDate_isoformat {y m d : ℕ} (h : validDate y m d = true) :
    strptimeDate (ymdPaths '-') (isoformat y m d) = some (y, m, d) := by
  obtain ⟨hy1, hy2, hm1, hm2, hd1, hd2⟩ := validDate_bounds h
  unfold strptimeDate isoformat
  rw [toList_asString]
  rw [show (pad4 y ++ '-' :: pad2 m ++ '-' :: pad2 d : List Char)
      = pad4 y ++ ('-' :: (pad2 m ++ ('-' :: pad2 d))) by simp]
  obtain ⟨junk, hj⟩ := ymdPaths_iso hy2 hm1 hm2 hd1 hd2
  rw [hj]
  simp [h]

theorem strptimeDate_valid {paths : List Char → List ((ℕ × ℕ × ℕ) × List Char)}
    {s : String} {y m d : ℕ} (h : strptimeDate paths s = some (y, m, d)) :
    validDate y m d = true := by
  unfold strptimeDate at h
  rcases hh : (paths s.toList).head? with _ | ⟨⟨⟨y2, m2, d2⟩, rest⟩⟩
  · rw [hh] at h
    cases h
  · rw [hh] at h
    dsimp only at h
    by_cases hc : (rest.isEmpty && validDate y2 m2 d2) = true
    · rw [if_pos hc] at h
      cases h
      exact (Bool.and_eq_true _ _ |>.mp hc).2
    · rw [if_neg hc] at h
      cases h
/-- **C8-part.** `normalize_date` is idempotent: its non-empty outputs are
zero-padded ISO forms of valid dates, which the first format parses back to
the same date. -/
theorem normalize_date_idem (s : String) :
    normalize_date (normalize_date s) = normalize_date s := by
  unfold normalize_date
  rcases h1 : strptimeDate (ymdPaths '-') s with _ | ⟨⟨y, m, d⟩⟩
  · rcases h2 : strptimeDate (dmyPaths '/') s with _ | ⟨⟨y, m, d⟩⟩
    · rcases h3 : strptimeDate (dmyPaths '-') s with _ | ⟨⟨y, m, d⟩⟩
      · rfl
      · have hv := strptimeDate_valid h3
        rw [strptimeDate_isoformat hv]
    · have hv := strptimeDate_valid h2
      rw [strptimeDate_isoformat hv]
  · have hv := strptimeDate_valid h1
    rw [strptimeDate_isoformat hv]

/-! ## Claim C8 -/

/-- **C8 counterexample.**  Normalization is not idempotent as claimed:
`normalize_vendor " "` is the empty string (the whitespace-only input is
truthy, and joining its empty token list gives `""`), while a second
application maps `""` to `"UNKNOWN"`. -/
theorem normalize_vendor_not_idempotent :
    normalize_vendor (normalize_vendor " ") ≠ normalize_vendor " " := by
  decide

/-- **C8 (amended).**  `normalize_currency` and `normalize_date` are
idempotent on every string; `normalize_vendor` is idempotent on every string
that is empty or contains a non-whitespace character (non-empty
whitespace-only strings map to `""` and then to `"UNKNOWN"`). -/
theorem normalization_idempotence_amended :
    (∀ s, normalize_currency (normalize_currency s) = normalize_currency s) ∧
    (∀ s, normalize_date (normalize_date s) = normalize_date s) ∧
    (∀ s, (s = "" ∨ ∃ c ∈ s.toList, isPySpace c = false) →
      normalize_vendor (normalize_vendor s) = normalize_vendor s) :=
  ⟨normalize_currency_idem, normalize_date_idem, normalize_vendor_idem_of⟩

/-! ## Claim C9 -/

/-- **C9 counterexample.**  `normalize_vendor` does return an empty string on
the whitespace-only input `" "`: `" "` is truthy, so the `"UNKNOWN"` default
is skipped, and `" ".upper().split()` is empty, so the join is `""`. -/
theorem normalize_vendor_whitespace_empty : normalize_vendor " " = "" := by
  decide

/-- **C9 (amended).**  `normalize_vendor` returns the sentinel `"UNKNOWN"`
when the input is empty and never returns an empty string for an input
containing at least one non-whitespace character; for non-empty
whitespace-only inputs it returns the empty string. -/
theorem normalize_vendor_sentinel_amended :
    normalize_vendor "" = "UNKNOWN" ∧
    (∀ s : String, (∃ c ∈ s.toList, isPySpace c = false) →
      normalize_vendor s ≠ "") ∧
    normalize_vendor " " = "" :=
  ⟨rfl, normalize_vendor_ne_empty, by decide⟩

theorem sortDesc_head (l : List (ℚ × String)) : (sortDesc l).head? = firstMax l := by
  induction l with
  | nil => rfl
  | cons x xs ih =>
    show (insertDesc x (sortDesc xs)).head? = firstMax (x :: xs)
    rcases hs : sortDesc xs with _ | ⟨y, ys⟩
    · rw [hs] at ih
      unfold firstMax
      rw [← ih]
      rfl
    · rw [hs] at ih
      unfold firstMax
      rw [← ih]
      unfold insertDesc
      by_cases h : y.1 ≤ x.1
      · rw [if_pos h]
        simp [not_lt.mpr h]
      · rw [if_neg h]
        simp [lt_of_not_le h]

theorem firstMax_eq_none_iff {l : List (ℚ × String)} : firstMax l = none ↔ l = [] := by
  constructor
  · intro h
    rcases l with _ | ⟨x, xs⟩
    · rfl
    · unfold firstMax at h
      rcases hf : firstMax xs with _ | m2 <;> rw [hf] at h <;> dsimp only at h
      · cases h
      · by_cases hlt : x.1 < m2.1
        · rw [if_pos hlt] at h
          cases h
        · rw [if_neg hlt] at h
          cases h
  · rintro rfl
    rfl

theorem firstMax_mem {l : List (ℚ × String)} {m : ℚ × String}
    (h : firstMax l = some m) : m ∈ l := by
  induction l with
  | nil => cases h
  | cons x xs ih =>
    unfold firstMax at h
    rcases hf : firstMax xs with _ | m2 <;> rw [hf] at h <;> dsimp only at h
    · obtain rfl := (Option.some.inj h).symm
      exact List.mem_cons_self _ _
    · by_cases hlt : x.1 < m2.1
      · rw [if_pos hlt] at h
        obtain rfl := (Option.some.inj h).symm
        exact List.mem_cons_of_mem x (ih hf)
      · rw [if_neg hlt] at h
        obtain rfl := (Option.some.inj h).symm
        exact List.mem_cons_self _ _

theorem firstMax_is_max {l : List (ℚ × String)} :
    ∀ {m : ℚ × String}, firstMax l = some m → ∀ p ∈ l, p.1 ≤ m.1 := by
  induction l with
  | nil => intro m h; cases h
  | cons x xs ih =>
    intro m h
    unfold firstMax at h
    rcases hf : firstMax xs with _ | m2 <;> rw [hf] at h <;> dsimp only at h
    · obtain rfl := (Option.some.inj h).symm
      have hxs : xs = [] := firstMax_eq_none_iff.mp hf
      subst hxs
      intro p hp
      rcases List.mem_singleton.mp hp with rfl
      exact le_refl _
    · by_cases hlt : x.1 < m2.1
      · rw [if_pos hlt] at h
        obtain rfl := (Option.some.inj h).symm
        intro p hp
        rcases List.mem_cons.mp hp with rfl | hp2
        · exact le_of_lt hlt
        · exact ih hf p hp2
      · rw [if_neg hlt] at h
        obtain rfl := (Option.some.inj h).symm
        intro p hp
        rcases List.mem_cons.mp hp with rfl | hp2
        · exact le_refl _
        · exact le_trans (ih hf p hp2) (not_lt.mp hlt)

theorem firstMax_eq_of_earliest (l : List (ℚ × String)) (i : ℕ) (hi : i < l.length)
    (hmax : ∀ p ∈ l, p.1 ≤ (l.get ⟨i, hi⟩).1)
    (hfirst : ∀ j, (hj : j < i) → (l.get ⟨j, Nat.lt_trans hj hi⟩).1 < (l.get ⟨i, hi⟩).1) :
    firstMax l = some (l.get ⟨i, hi⟩) := by
  induction l generalizing i with
  | nil => simp at hi
  | cons x xs ih =>
    rcases i with _ | i
    · unfold firstMax
      rcases hf : firstMax xs with _ | m2
      · simp [hf]
      · have hm2 : m2 ∈ xs := firstMax_mem hf
        have hle : m2.1 ≤ x.1 := hmax m2 (List.mem_cons_of_mem _ hm2)
        simp [hf, not_lt.mpr hle]
    · have hi2 : i < xs.length := by simpa using hi
      have hmax2 : ∀ p ∈ xs, p.1 ≤ (xs.get ⟨i, hi2⟩).1 := fun p hp =>
        hmax p (List.mem_cons_of_mem _ hp)
      have hfirst2 : ∀ j, (hj : j < i) →
          (xs.get ⟨j, Nat.lt_trans hj hi2⟩).1 < (xs.get ⟨i, hi2⟩).1 := fun j hj =>
        hfirst (j + 1) (by omega)
      have hx : x.1 < (xs.get ⟨i, hi2⟩).1 := hfirst 0 (by omega)
      unfold firstMax
      rw [ih i hi2 hmax2 hfirst2]
      dsimp only
      rw [if_pos hx]
      rfl

/-! ## Claim C2 -/

/-- **C2.**  For every non-empty OCR text, `extract_vendor_name_nlp` scores
the (at most twenty) candidate lines of `vendorCandidates` — the first 20
non-trivial lines (trimmed length ≥ 3), each normalized and scored by
`score_line` — and returns the candidate of maximal score, ties broken by the
earliest line index, exactly when that score is at least 4, and the empty
string otherwise: if position `i` holds a maximal score that is strictly
above every earlier score, the result is its line when its score is ≥ 4 and
`""` when its score is < 4. -/
theorem extract_vendor_name_nlp_selects (ocr_text : String) (h : ocr_text ≠ "")
    (i : ℕ) (hi : i < (vendorCandidates ocr_text).length)
    (hmax : ∀ p ∈ vendorCandidates ocr_text,
      p.1 ≤ ((vendorCandidates ocr_text).get ⟨i, hi⟩).1)
    (hfirst : ∀ j, (hj : j < i) →
      ((vendorCandidates ocr_text).get ⟨j, Nat.lt_trans hj hi⟩).1 <
        ((vendorCandidates ocr_text).get ⟨i, hi⟩).1) :
    extract_vendor_name_nlp ocr_text =
      if ((vendorCandidates ocr_text).get ⟨i, hi⟩).1 < 4 then ""
      else ((vendorCandidates ocr_text).get ⟨i, hi⟩).2 := by
  have hfm : firstMax (vendorCandidates ocr_text)
      = some ((vendorCandidates ocr_text).get ⟨i, hi⟩) :=
    firstMax_eq_of_earliest _ i hi hmax hfirst
  have hhead : (sortDesc (vendorCandidates ocr_text)).head?
      = some ((vendorCandidates ocr_text).get ⟨i, hi⟩) := by
    rw [sortDesc_head]
    exact hfm
  obtain ⟨rest, hrest⟩ : ∃ rest, sortDesc (vendorCandidates ocr_text)
      = (vendorCandidates ocr_text).get ⟨i, hi⟩ :: rest := by
    rcases hs : sortDesc (vendorCandidates ocr_text) with _ | ⟨p, ps⟩
    · rw [hs] at hhead
      cases hhead
    · rw [hs] at hhead
      exact ⟨ps, by rw [← Option.some.inj hhead]⟩
  have hlines : (vendorLines ocr_text).isEmpty = false := by
    rcases hL : vendorLines ocr_text with _ | ⟨a, as⟩
    · unfold vendorCandidates at hi
      rw [hL] at hi
      simp at hi
    · rfl
  unfold extract_vendor_name_nlp
  rw [if_neg h]
  dsimp only
  rw [if_neg (by rw [hlines]; exact Bool.false_ne_true), hrest]

/-- **C2 witness.**  On the OCR text `"ACME LTD\nx"` there is a single
candidate line, `"ACME LTD"`, scoring 23 ≥ 4 at index 0, and the extractor
returns it. -/
theorem extract_vendor_name_nlp_selects_witness :
    extract_vendor_name_nlp "ACME LTD\nx" = "ACME LTD" := by
  have h := extract_vendor_name_nlp_selects "ACME LTD\nx" (by decide) 0
    (by with_unfolding_all decide)
    (by with_unfolding_all decide)
    (fun j hj => absurd hj (Nat.not_lt_zero j))
  rw [h]
  with_unfolding_all decide
